import Mathlib

/-!
Verification development for the semantic-insights vector search layer.

The definitions below are a shallow embedding of the Python sources:
`src/vector_store.py` (local backend: `_upsert_local`, `_search_local`,
`_matches_filters`, the `VectorStore.__init__` backend-selection policy and
the `EnhancedSemanticSearchEngine` with `_explain_match`),
`src/search_engine.py` (`_load_embeddings`) and
`src/embedding_generator.py` (`generate_embedding`).

Numeric vector components are modelled as rationals (the Python code works
with JSON numbers); fallible operations are modelled with `Except`/`Option`.
-/

/-- Metadata of one embedding record, as stored in the local JSON file. -/
structure Metadata where
  primary_goal : String
  main_blocker : String
  business_focus : String
  mindset_pattern : String
  urgency_level : Int
deriving DecidableEq

/-- One embedding record (`embeddings_data` entry in the local JSON file). -/
structure Record where
  id : String
  participant : String
  embedding : List ℚ
  searchable_text : String
  metadata : Metadata
deriving DecidableEq

/-- A search result dictionary as built by `VectorStore._search_local`. -/
structure SearchResult where
  id : String
  similarity_score : ℚ
  participant : String
  metadata : Metadata
  searchable_text : String
deriving DecidableEq

/-- A filter value in the `filters` dict: Python string or int. -/
inductive FVal where
  | s (v : String)
  | i (v : Int)
deriving DecidableEq

/-- The `filters` dict of `_search_local`, as an association list
(first binding wins, like unique dict keys). `[]` models both `None`
and the empty dict, which Python's `if filters:` treats identically. -/
abbrev Filters := List (String × FVal)

/-- Python `filters[k]` / `k in filters` lookup. -/
def lookupF (fs : Filters) (k : String) : Option FVal :=
  match fs.find? (fun p => p.1 == k) with
  | some p => some p.2
  | none => none

/-- Python `str.lower()`, character by character (kernel-reducible model
of `String.toLower`). -/
def pyLower (s : String) : String := String.mk (s.data.map Char.toLower)

/-- Participant clause of `VectorStore._matches_filters` (checked last):
`item.get('participant','').lower() != filters['participant'].lower()`
returns False; a non-string filter value raises (modelled as `.error`). -/
def matches_participant (item : Record) (fs : Filters) : Except Unit Bool :=
  match lookupF fs "participant" with
  | none => Except.ok true
  | some (FVal.s v) =>
    if pyLower item.participant = pyLower v then Except.ok true else Except.ok false
  | some (FVal.i _) => Except.error ()

/-- Urgency clause of `VectorStore._matches_filters` (checked second):
`metadata.get('urgency_level', 3) < filters['urgency_level']` returns
False; comparing with a string filter value raises. -/
def matches_urgency (item : Record) (fs : Filters) : Except Unit Bool :=
  match lookupF fs "urgency_level" with
  | none => matches_participant item fs
  | some (FVal.i v) =>
    if item.metadata.urgency_level < v then Except.ok false
    else matches_participant item fs
  | some (FVal.s _) => Except.error ()

/-- `VectorStore._matches_filters`: business-focus clause first, then
urgency, then participant; keys other than these three are never read. -/
def matches_filters (item : Record) (fs : Filters) : Except Unit Bool :=
  match lookupF fs "business_focus" with
  | none => matches_urgency item fs
  | some (FVal.s v) =>
    if pyLower item.metadata.business_focus = pyLower v then matches_urgency item fs
    else Except.ok false
  | some (FVal.i _) => Except.error ()

/-- The filtering loop of `_search_local` (`for item ...: if
self._matches_filters(item, filters): filtered_data.append(item)`);
an exception anywhere aborts the whole search. -/
def apply_filters (fs : Filters) : List Record → Except Unit (List Record)
  | [] => Except.ok []
  | r :: rs =>
    match matches_filters r fs with
    | Except.error e => Except.error e
    | Except.ok b =>
      match apply_filters fs rs with
      | Except.error e => Except.error e
      | Except.ok rest => Except.ok (if b then r :: rest else rest)

/-- The `if filters:` guard of `_search_local`: an empty/absent filter dict
skips filtering altogether. -/
def candidates_of (store : List Record) (fs : Filters) : Except Unit (List Record) :=
  if fs.isEmpty then Except.ok store else apply_filters fs store

/-- `np.dot(query_vector, embedding_vector.T)[0][0]`: defined only when the
two vectors have equal length, otherwise numpy raises (modelled as `none`). -/
def np_dot : List ℚ → List ℚ → Option ℚ
  | [], [] => some 0
  | x :: xs, y :: ys =>
    match np_dot xs ys with
    | some s => some (x * y + s)
    | none => none
  | _, _ => none

/-- Total dot product on equal-length vectors (value of `np_dot` when the
shapes agree). -/
def dotP : List ℚ → List ℚ → ℚ
  | x :: xs, y :: ys => x * y + dotP xs ys
  | _, _ => 0

/-- The similarity loop of `_search_local`, building `(similarity, item)`
pairs in candidate order; a shape mismatch raises. -/
def sims_of (q : List ℚ) : List Record → Except Unit (List (ℚ × Record))
  | [] => Except.ok []
  | r :: rs =>
    match np_dot q r.embedding with
    | none => Except.error ()
    | some s =>
      match sims_of q rs with
      | Except.error e => Except.error e
      | Except.ok rest => Except.ok ((s, r) :: rest)

/-- Insert one scored pair into a descending list, placing it before the
first element whose score is not strictly greater: together with
`stable_sort_desc` this realizes Python's stable
`similarities.sort(key=lambda x: x[0], reverse=True)`. -/
def insertDesc (x : ℚ × Record) : List (ℚ × Record) → List (ℚ × Record)
  | [] => [x]
  | y :: ys => if x.1 < y.1 then y :: insertDesc x ys else x :: y :: ys

/-- Stable descending sort by score (model of Python's stable list sort
with `reverse=True`). -/
def stable_sort_desc : List (ℚ × Record) → List (ℚ × Record)
  | [] => []
  | x :: xs => insertDesc x (stable_sort_desc xs)

/-- Python slicing `lst[:k]` for an arbitrary integer `k`: a non-negative
`k` keeps the first `k` elements; a negative `k` drops the last `-k`. -/
def pySlice (k : Int) (l : List α) : List α :=
  if 0 ≤ k then l.take k.toNat else l.take (l.length - (-k).toNat)

/-- Result-dict construction of `_search_local`. -/
def toRes (p : ℚ × Record) : SearchResult :=
  { id := p.2.id
    similarity_score := p.1
    participant := p.2.participant
    metadata := p.2.metadata
    searchable_text := p.2.searchable_text }

/-- `VectorStore._search_local` up to its enclosing `try`: empty store
returns `[]`, then filter, score, stable-sort descending, slice `[:top_k]`
and build result dicts. Any raised exception is an `.error`. -/
def search_localE (store : List Record) (q : List ℚ) (topK : Int) (fs : Filters) :
    Except Unit (List SearchResult) :=
  if store.isEmpty then Except.ok []
  else
    match candidates_of store fs with
    | Except.error e => Except.error e
    | Except.ok cands =>
      match sims_of q cands with
      | Except.error e => Except.error e
      | Except.ok sims =>
        Except.ok ((pySlice topK (stable_sort_desc sims)).map toRes)

/-- `VectorStore._search_local`: the `except Exception` handler turns any
raised exception into an empty result list. -/
def search_local (store : List Record) (q : List ℚ) (topK : Int) (fs : Filters) :
    List SearchResult :=
  match search_localE store q topK fs with
  | Except.ok r => r
  | Except.error _ => []

/-- The local embeddings file: `none` models an absent file. -/
abbrev StoreFile := Option (List Record)

/-- `VectorStore._search_local` including the `os.path.exists` guard. -/
def search_local_file (file : StoreFile) (q : List ℚ) (topK : Int) (fs : Filters) :
    List SearchResult :=
  match file with
  | none => []
  | some store => search_local store q topK fs

/-- `VectorStore._upsert_local` (success path): `open(path, 'w')` and
`json.dump(embeddings_data, f)` replace the whole file content with
exactly the given records. -/
def upsert_local (newData : List Record) (_oldFile : StoreFile) : StoreFile :=
  some newData

/-- State of the persisted embeddings resource as seen by
`SemanticSearchEngine._load_embeddings`: absent file, present-but-empty
file, unparsable JSON, or a successfully parsed list of records. -/
inductive FileState where
  | absent
  | emptyFile
  | corrupt
  | parsed (data : List Record)

/-- Outcome of `_load_embeddings`: the working record set, the number of
per-record warnings issued for dimension mismatches, and whether an error
signal (`st.error`) was raised. -/
structure LoadResult where
  records : List Record
  warnings : Nat
  errored : Bool
deriving DecidableEq

/-- `SemanticSearchEngine._load_embeddings`: absent or zero-size file warns
and yields `[]`; corrupt JSON signals an error and yields `[]`; an empty
parsed list yields `[]`; a zero-length first vector signals an error and
yields `[]`; otherwise record 0's dimension is authoritative and every
mismatching record is dropped with a warning. -/
def load_embeddings : FileState → LoadResult
  | FileState.absent => { records := [], warnings := 1, errored := false }
  | FileState.emptyFile => { records := [], warnings := 1, errored := false }
  | FileState.corrupt => { records := [], warnings := 0, errored := true }
  | FileState.parsed [] => { records := [], warnings := 0, errored := false }
  | FileState.parsed (r0 :: rest) =>
    let d := r0.embedding.length
    if d = 0 then { records := [], warnings := 0, errored := true }
    else
      { records := (r0 :: rest).filter (fun r => r.embedding.length == d)
        warnings := ((r0 :: rest).filter (fun r => r.embedding.length != d)).length
        errored := false }

/-- The two storage backends behind the `VectorStore` facade. -/
inductive Backend where
  | remote
  | local
deriving DecidableEq

/-- Python truthiness of `Config.PINECONE_API_KEY` (`None` or a string). -/
def pyTruthy : Option String → Bool
  | none => false
  | some s => !(s == "")

/-- `VectorStore.__init__` together with `_init_pinecone`:
`self.use_pinecone = use_pinecone and PINECONE_AVAILABLE and
Config.PINECONE_API_KEY`; when true, remote initialization is attempted and
any exception (modelled by `remoteOk = false`) falls back to
`_init_local_storage`; otherwise local storage is used directly. -/
def initBackend (use_pinecone availablePC : Bool) (apiKey : Option String)
    (remoteOk : Bool) : Backend :=
  if use_pinecone && availablePC && pyTruthy apiKey then
    (if remoteOk then Backend.remote else Backend.local)
  else Backend.local

/-- `EmbeddingGenerator.generate_embedding`: provider unavailable or a
raised provider call (modelled by `apiRes = none`) yields the all-zero
vector of length `self.embedding_dim`. -/
def generate_embedding (dim : Nat) (api_available : Bool)
    (apiRes : Option (List ℚ)) : List ℚ :=
  if !api_available then List.replicate dim 0
  else
    match apiRes with
    | some v => v
    | none => List.replicate dim 0

/-- Boolean test that `pat` starts the character list `text`. -/
def startsWithL : List Char → List Char → Bool
  | [], _ => true
  | _ :: _, [] => false
  | a :: as, b :: bs => a == b && startsWithL as bs

/-- Python's substring containment `pat in text` on character lists. -/
def containsL (pat : List Char) : List Char → Bool
  | [] => startsWithL pat []
  | c :: rest => startsWithL pat (c :: rest) || containsL pat rest

/-- Python `needle in hay` for strings. -/
def substrB (needle hay : String) : Bool :=
  containsL needle.toList hay.toList

/-- Accumulator loop for `pyWords`: collect maximal non-whitespace runs. -/
def wordsAux : List Char → List Char → List String
  | [], acc => if acc.isEmpty then [] else [String.mk acc.reverse]
  | c :: cs, acc =>
    if c.isWhitespace then
      (if acc.isEmpty then wordsAux cs [] else String.mk acc.reverse :: wordsAux cs [])
    else wordsAux cs (c :: acc)

/-- Python `s.split()`: split on whitespace runs, dropping empty pieces. -/
def pyWords (s : String) : List String := wordsAux s.data []

/-- `EnhancedSemanticSearchEngine._explain_match`: reasons are appended in
source order — goal, challenge, business type, mindset — and joined with
" + "; the fallback is "Semantic similarity". -/
def explain_match (query : String) (md : Metadata) : String :=
  let ql := pyLower query
  let ws := pyWords ql
  let e1 := if ws.any (fun w => substrB w (pyLower md.primary_goal)) then ["Similar goal"] else []
  let e2 := if ws.any (fun w => substrB w (pyLower md.main_blocker)) then ["Similar challenge"] else []
  let e3 := if substrB (pyLower md.business_focus) ql then ["Same business type"] else []
  let e4 := if ws.any (fun w => substrB w (pyLower md.mindset_pattern)) then ["Similar mindset"] else []
  let es := e1 ++ e2 ++ e3 ++ e4
  String.intercalate " + " (if es = [] then ["Semantic similarity"] else es)

/-- Explanation builder transcribed from the claim text of C9, which lists
the join order as goal, challenge, mindset, business type (refinement
reference, compared against the source-derived `explain_match`). -/
def explain_match_claimed (query : String) (md : Metadata) : String :=
  let ql := pyLower query
  let ws := pyWords ql
  let e1 := if ws.any (fun w => substrB w (pyLower md.primary_goal)) then ["Similar goal"] else []
  let e2 := if ws.any (fun w => substrB w (pyLower md.main_blocker)) then ["Similar challenge"] else []
  let e3 := if ws.any (fun w => substrB w (pyLower md.mindset_pattern)) then ["Similar mindset"] else []
  let e4 := if substrB (pyLower md.business_focus) ql then ["Same business type"] else []
  let es := e1 ++ e2 ++ e3 ++ e4
  String.intercalate " + " (if es = [] then ["Semantic similarity"] else es)

/-- Explanation builder transcribed from the amended claim wording: same
triggers, joined in the source order goal, challenge, business type,
mindset (refinement reference for the amended C9). -/
def explain_match_amended (query : String) (md : Metadata) : String :=
  let ql := pyLower query
  let ws := pyWords ql
  let e1 := if ws.any (fun w => substrB w (pyLower md.primary_goal)) then ["Similar goal"] else []
  let e2 := if ws.any (fun w => substrB w (pyLower md.main_blocker)) then ["Similar challenge"] else []
  let e3 := if substrB (pyLower md.business_focus) ql then ["Same business type"] else []
  let e4 := if ws.any (fun w => substrB w (pyLower md.mindset_pattern)) then ["Similar mindset"] else []
  let es := e1 ++ e2 ++ e3 ++ e4
  String.intercalate " + " (if es = [] then ["Semantic similarity"] else es)

/-- A search result after `EnhancedSemanticSearchEngine.search` attached
its `explanation` key. -/
structure ExplainedResult where
  base : SearchResult
  explanation : String
deriving DecidableEq

/-- `EnhancedSemanticSearchEngine.search` over the local backend: embed the
query (with the generator's fallback behaviour), run the vector-store
search, then attach an explanation to every result. -/
def enhanced_search (store : List Record) (dim : Nat) (api_available : Bool)
    (apiRes : Option (List ℚ)) (query : String) (topK : Int) (fs : Filters) :
    List ExplainedResult :=
  let qv := generate_embedding dim api_available apiRes
  (search_local store qv topK fs).map
    (fun r => { base := r, explanation := explain_match query r.metadata })

/-- Well-typedness of the supported filter keys: string values for the two
equality keys, an int for the urgency threshold. Keys other than the three
supported ones are unconstrained. -/
def wellTypedF (fs : Filters) : Bool :=
  (match lookupF fs "business_focus" with
   | some (FVal.i _) => false
   | _ => true) &&
  (match lookupF fs "urgency_level" with
   | some (FVal.s _) => false
   | _ => true) &&
  (match lookupF fs "participant" with
   | some (FVal.i _) => false
   | _ => true)

/-- Concrete metadata fixture with high urgency. -/
def mdA : Metadata :=
  { primary_goal := "grow audience", main_blocker := "time",
    business_focus := "bakery", mindset_pattern := "growth", urgency_level := 4 }

/-- Concrete metadata fixture with low urgency. -/
def mdB : Metadata :=
  { primary_goal := "", main_blocker := "", business_focus := "tech",
    mindset_pattern := "", urgency_level := 2 }

/-- Fixture record with unit vector along the first axis. -/
def recA : Record :=
  { id := "a", participant := "Alice", embedding := [1, 0],
    searchable_text := "ta", metadata := mdA }

/-- Fixture record with unit vector along the second axis. -/
def recB : Record :=
  { id := "b", participant := "Bob", embedding := [0, 1],
    searchable_text := "tb", metadata := mdB }

/-- Fixture record sharing recA's vector, for tie-break tests. -/
def recC : Record :=
  { id := "c", participant := "Cara", embedding := [1, 0],
    searchable_text := "tc", metadata := mdB }

/-- One-dimensional fixture record with a short vector. -/
def recA1 : Record :=
  { id := "a", participant := "Alice", embedding := [1],
    searchable_text := "ta", metadata := mdA }

/-- One-dimensional fixture record with a longer vector. -/
def recB2 : Record :=
  { id := "b", participant := "Bob", embedding := [2],
    searchable_text := "tb", metadata := mdB }

/-- Fixture record with an empty vector. -/
def recZero : Record :=
  { id := "z", participant := "Zoe", embedding := [],
    searchable_text := "tz", metadata := mdB }

/-- Fixture filter: a supported participant key plus an unsupported key. -/
def wfs : Filters := [("participant", FVal.s "alice"), ("bogus", FVal.s "x")]

/-! ### Helper lemmas about the stable descending sort -/

theorem mem_insertDesc {x z : ℚ × Record} {l : List (ℚ × Record)} :
    z ∈ insertDesc x l ↔ z = x ∨ z ∈ l := by
  induction l with
  | nil => simp [insertDesc]
  | cons y ys ih =>
    by_cases h : x.1 < y.1
    · simp only [insertDesc, if_pos h, List.mem_cons, ih]
      tauto
    · simp only [insertDesc, if_neg h, List.mem_cons]

theorem perm_insertDesc (x : ℚ × Record) (l : List (ℚ × Record)) :
    List.Perm (insertDesc x l) (x :: l) := by
  induction l with
  | nil => exact List.Perm.refl _
  | cons y ys ih =>
    by_cases h : x.1 < y.1
    · simp only [insertDesc, if_pos h]
      exact (ih.cons y).trans (List.Perm.swap x y ys)
    · simp only [insertDesc, if_neg h]
      exact List.Perm.refl _

theorem pairwise_insertDesc {x : ℚ × Record} {l : List (ℚ × Record)}
    (h : List.Pairwise (fun a b : ℚ × Record => b.1 ≤ a.1) l) :
    List.Pairwise (fun a b : ℚ × Record => b.1 ≤ a.1) (insertDesc x l) := by
  induction l with
  | nil => simp [insertDesc]
  | cons y ys ih =>
    rcases List.pairwise_cons.mp h with ⟨hy, hys⟩
    by_cases hlt : x.1 < y.1
    · simp only [insertDesc, if_pos hlt]
      refine List.pairwise_cons.mpr ⟨?_, ih hys⟩
      intro z hz
      rcases mem_insertDesc.mp hz with rfl | hz'
      · exact le_of_lt hlt
      · exact hy z hz'
    · simp only [insertDesc, if_neg hlt]
      refine List.pairwise_cons.mpr ⟨?_, h⟩
      intro z hz
      rcases List.mem_cons.mp hz with rfl | hz'
      · exact not_lt.mp hlt
      · exact le_trans (hy z hz') (not_lt.mp hlt)

theorem filter_insertDesc (s : ℚ) (x : ℚ × Record) (l : List (ℚ × Record)) :
    (insertDesc x l).filter (fun p => decide (p.1 = s)) =
      if x.1 = s then x :: l.filter (fun p => decide (p.1 = s))
      else l.filter (fun p => decide (p.1 = s)) := by
  induction l with
  | nil => by_cases hx : x.1 = s <;> simp [insertDesc, hx]
  | cons y ys ih =>
    by_cases hlt : x.1 < y.1
    · have hxy : x.1 ≠ y.1 := ne_of_lt hlt
      simp only [insertDesc, if_pos hlt, List.filter_cons]
      by_cases hy : y.1 = s
      · have hx : ¬ x.1 = s := by rw [← hy] at *; exact hxy
        simp [hy, hx, ih]
      · by_cases hx : x.1 = s <;> simp [hy, hx, ih]
    · simp only [insertDesc, if_neg hlt, List.filter_cons]
      by_cases hx : x.1 = s <;> simp [hx]

theorem perm_stable_sort (l : List (ℚ × Record)) :
    List.Perm (stable_sort_desc l) l := by
  induction l with
  | nil => exact List.Perm.refl _
  | cons x xs ih =>
    exact (perm_insertDesc x (stable_sort_desc xs)).trans (ih.cons x)

theorem pairwise_stable_sort (l : List (ℚ × Record)) :
    List.Pairwise (fun a b : ℚ × Record => b.1 ≤ a.1) (stable_sort_desc l) := by
  induction l with
  | nil => simp [stable_sort_desc]
  | cons x xs ih => exact pairwise_insertDesc ih

theorem filter_stable_sort (s : ℚ) (l : List (ℚ × Record)) :
    (stable_sort_desc l).filter (fun p => decide (p.1 = s)) =
      l.filter (fun p => decide (p.1 = s)) := by
  induction l with
  | nil => rfl
  | cons x xs ih =>
    simp only [stable_sort_desc, filter_insertDesc, List.filter_cons]
    by_cases hx : x.1 = s <;> simp [hx, ih]

/-! ### Helper lemmas about similarity computation and filtering -/

theorem np_dot_eq_some : ∀ {a b : List ℚ}, a.length = b.length →
    np_dot a b = some (dotP a b)
  | [], [], _ => rfl
  | x :: xs, y :: ys, h => by
    have h' : xs.length = ys.length := by simpa using h
    simp [np_dot, dotP, np_dot_eq_some h']

theorem sims_of_eq {q : List ℚ} {cands : List Record}
    (h : ∀ r ∈ cands, r.embedding.length = q.length) :
    sims_of q cands = Except.ok (cands.map (fun r => (dotP q r.embedding, r))) := by
  induction cands with
  | nil => rfl
  | cons r rs ih =>
    have hd : q.length = r.embedding.length := (h r (by simp)).symm
    simp only [sims_of, np_dot_eq_some hd, ih (fun s hs => h s (by simp [hs])),
      List.map_cons]

theorem mem_sims_of {q : List ℚ} : ∀ {cands : List Record}
    {sims : List (ℚ × Record)}, sims_of q cands = Except.ok sims →
    ∀ p ∈ sims, p.2 ∈ cands ∧ np_dot q p.2.embedding = some p.1 := by
  intro cands
  induction cands with
  | nil =>
    intro sims h p hp
    simp only [sims_of, Except.ok.injEq] at h
    subst h
    simp at hp
  | cons r rs ih =>
    intro sims h p hp
    simp only [sims_of] at h
    cases hnd : np_dot q r.embedding with
    | none => rw [hnd] at h; cases h
    | some s =>
      rw [hnd] at h
      cases hrec : sims_of q rs with
      | error e => rw [hrec] at h; cases h
      | ok rest =>
        rw [hrec] at h
        cases h
        rcases List.mem_cons.mp hp with rfl | hp'
        · exact ⟨by simp, hnd⟩
        · rcases ih hrec p hp' with ⟨h1, h2⟩
          exact ⟨by simp [h1], h2⟩

theorem matches_filters_empty (item : Record) :
    matches_filters item [] = Except.ok true := rfl

theorem mem_apply_filters {fs : Filters} : ∀ {recs cands : List Record},
    apply_filters fs recs = Except.ok cands →
    ∀ r ∈ cands, r ∈ recs ∧ matches_filters r fs = Except.ok true := by
  intro recs
  induction recs with
  | nil =>
    intro cands h r hr
    simp only [apply_filters, Except.ok.injEq] at h
    subst h
    simp at hr
  | cons x xs ih =>
    intro cands h r hr
    simp only [apply_filters] at h
    cases hm : matches_filters x fs with
    | error e => rw [hm] at h; cases h
    | ok b =>
      rw [hm] at h
      cases hrec : apply_filters fs xs with
      | error e => rw [hrec] at h; cases h
      | ok rest =>
        rw [hrec] at h
        cases h
        cases b with
        | true =>
          rcases List.mem_cons.mp (by simpa using hr) with rfl | hr'
          · exact ⟨by simp, hm⟩
          · rcases ih hrec r hr' with ⟨h1, h2⟩
            exact ⟨by simp [h1], h2⟩
        | false =>
          rcases ih hrec r (by simpa using hr) with ⟨h1, h2⟩
          exact ⟨by simp [h1], h2⟩

theorem mem_candidates_of {store : List Record} {fs : Filters}
    {cands : List Record} (h : candidates_of store fs = Except.ok cands) :
    ∀ r ∈ cands, r ∈ store ∧ matches_filters r fs = Except.ok true := by
  unfold candidates_of at h
  by_cases he : fs.isEmpty
  · rw [if_pos he, Except.ok.injEq] at h
    subst h
    have : fs = [] := List.isEmpty_iff.mp he
    subst this
    exact fun r hr => ⟨hr, matches_filters_empty r⟩
  · rw [if_neg he] at h
    exact mem_apply_filters h

theorem candidates_of_nil {fs : Filters} {cands : List Record}
    (h : candidates_of [] fs = Except.ok cands) : cands = [] := by
  unfold candidates_of at h
  by_cases he : fs.isEmpty
  · rw [if_pos he, Except.ok.injEq] at h
    exact h.symm
  · rw [if_neg he] at h
    simp only [apply_filters, Except.ok.injEq] at h
    exact h.symm

/-! ### Helper lemmas about slicing and the assembled search -/

theorem pySlice_sublist (k : Int) (l : List α) : (pySlice k l).Sublist l := by
  unfold pySlice
  split
  · exact List.take_sublist _ _
  · exact List.take_sublist _ _

theorem pySlice_isPre (k : Int) (l : List α) : pySlice k l <+: l := by
  unfold pySlice
  split
  · exact List.take_prefix _ _
  · exact List.take_prefix _ _

theorem pySlice_nil (k : Int) : pySlice k ([] : List α) = [] := by
  unfold pySlice
  split <;> simp

theorem pySlice_all {k : Int} {l : List α} (h : (l.length : Int) ≤ k) :
    pySlice k l = l := by
  have h0 : (0 : Int) ≤ k := le_trans (by positivity) h
  unfold pySlice
  rw [if_pos h0]
  exact List.take_of_length_le (by omega)

theorem length_pySlice_neg {k : Int} {l : List α} (h : k < 0) :
    (pySlice k l).length = l.length - (-k).toNat := by
  unfold pySlice
  rw [if_neg (by omega), List.length_take]
  omega

theorem search_localE_ok_form {store : List Record} {q : List ℚ} {topK : Int}
    {fs : Filters} {res : List SearchResult}
    (h : search_localE store q topK fs = Except.ok res) :
    ∃ sims, res = (pySlice topK (stable_sort_desc sims)).map toRes := by
  unfold search_localE at h
  split at h
  · rw [Except.ok.injEq] at h
    exact ⟨[], by simp [← h, stable_sort_desc, pySlice_nil]⟩
  · split at h
    · cases h
    · split at h
      · cases h
      · rw [Except.ok.injEq] at h
        exact ⟨_, h.symm⟩

theorem search_local_eq {store : List Record} {q : List ℚ} (topK : Int)
    {fs : Filters} {cands : List Record} {sims : List (ℚ × Record)}
    (hc : candidates_of store fs = Except.ok cands)
    (hs : sims_of q cands = Except.ok sims) :
    search_local store q topK fs = (pySlice topK (stable_sort_desc sims)).map toRes := by
  cases store with
  | nil =>
    have hcn : cands = [] := candidates_of_nil hc
    subst hcn
    simp only [sims_of, Except.ok.injEq] at hs
    subst hs
    simp [search_local, search_localE, stable_sort_desc, pySlice_nil]
  | cons a as =>
    simp only [search_local, search_localE, List.isEmpty_cons, hc, hs]
    simp

theorem mem_search_local {store : List Record} {q : List ℚ} {topK : Int}
    {fs : Filters} {res : SearchResult}
    (h : res ∈ search_local store q topK fs) :
    ∃ rec ∈ store, matches_filters rec fs = Except.ok true ∧
      res.id = rec.id ∧ res.participant = rec.participant ∧
      res.metadata = rec.metadata ∧ res.searchable_text = rec.searchable_text ∧
      np_dot q rec.embedding = some res.similarity_score := by
  unfold search_local at h
  cases hE : search_localE store q topK fs with
  | error e => rw [hE] at h; cases h
  | ok out =>
    rw [hE] at h
    unfold search_localE at hE
    split at hE
    · rw [Except.ok.injEq] at hE
      subst hE
      cases h
    · rename_i hst
      split at hE
      · cases hE
      · rename_i cands hc
        split at hE
        · cases hE
        · rename_i sims hs
          rw [Except.ok.injEq] at hE
          subst hE
          rcases List.mem_map.mp h with ⟨p, hp, rfl⟩
          have hp1 : p ∈ stable_sort_desc sims :=
            (pySlice_sublist topK (stable_sort_desc sims)).mem hp
          have hp2 : p ∈ sims := ((perm_stable_sort sims).mem_iff).mp hp1
          rcases mem_sims_of hs p hp2 with ⟨hmem, hdot⟩
          rcases mem_candidates_of hc p.2 hmem with ⟨hst2, hmf⟩
          exact ⟨p.2, hst2, hmf, rfl, rfl, rfl, rfl, hdot⟩

/-! ### Claim theorems -/

/-- C5: facade construction never fails the whole process: the remote
backend is selected exactly when the remote client library is importable,
a remote API credential is configured (Python-truthy), the caller requested
remote usage, and remote initialization does not raise; in every other
case, including a raising remote initialization, the local backend is
initialized instead, and the result is always one of the two backends. -/
theorem C5_construction_policy (u a : Bool) (k : Option String) (ok : Bool) :
    (initBackend u a k ok = Backend.remote ↔
      u = true ∧ a = true ∧ pyTruthy k = true ∧ ok = true) ∧
    (ok = false → initBackend u a k ok = Backend.local) ∧
    (initBackend u a k ok = Backend.remote ∨ initBackend u a k ok = Backend.local) := by
  cases u <;> cases a <;> cases ok <;> cases hk : pyTruthy k <;> simp [initBackend, hk]

/-- C5 witness: with the library present, a non-empty key, and a requested,
non-raising remote initialization the backend is remote; a raising remote
initialization falls back to local. -/
theorem C5_construction_policy_witness :
    initBackend true true (some "key") true = Backend.remote ∧
    initBackend true true (some "key") false = Backend.local :=
  ⟨(C5_construction_policy true true (some "key") true).1.mpr ⟨rfl, rfl, rfl, rfl⟩,
   (C5_construction_policy true true (some "key") false).2.1 rfl⟩

/-- C6: when the embedding provider is unavailable or its call fails,
`generate_embedding` returns the all-zero vector of the expected dimension
(it cannot raise), so the enhanced search completes and equals the search
run with the zero query vector. -/
theorem C6_zero_vector_fallback (dim : Nat) (avail : Bool)
    (apiRes : Option (List ℚ)) (store : List Record) (query : String)
    (topK : Int) (fs : Filters) (h : avail = false ∨ apiRes = none) :
    generate_embedding dim avail apiRes = List.replicate dim 0 ∧
    enhanced_search store dim avail apiRes query topK fs =
      (search_local store (List.replicate dim 0) topK fs).map
        (fun r => { base := r, explanation := explain_match query r.metadata }) := by
  have hg : generate_embedding dim avail apiRes = List.replicate dim 0 := by
    rcases h with rfl | rfl
    · simp [generate_embedding]
    · cases avail <;> simp [generate_embedding]
  exact ⟨hg, by simp [enhanced_search, hg]⟩

/-- C6 witness: concrete degraded-mode search with an unavailable provider. -/
theorem C6_zero_vector_fallback_witness :
    generate_embedding 2 false none = List.replicate 2 0 ∧
    enhanced_search [recA] 2 false none "x" 5 [] =
      (search_local [recA] (List.replicate 2 0) 5 []).map
        (fun r => { base := r, explanation := explain_match "x" r.metadata }) :=
  C6_zero_vector_fallback 2 false none [recA] "x" 5 [] (Or.inl rfl)

/-- C10: a successful local upsert replaces the entire stored record set
with exactly the given records: the new file holds exactly the argument
list, records of the old file missing from the argument list are absent
afterwards, and every subsequent search result originates from the new
records only. -/
theorem C10_upsert_replaces (old : StoreFile) (newData : List Record) :
    upsert_local newData old = some newData ∧
    (∀ r : Record, r ∈ old.getD [] → r ∉ newData →
      r ∉ (upsert_local newData old).getD []) ∧
    (∀ (q : List ℚ) (topK : Int) (fs : Filters) (res : SearchResult),
      res ∈ search_local_file (upsert_local newData old) q topK fs →
      ∃ rec ∈ newData, res.id = rec.id ∧ res.metadata = rec.metadata) := by
  refine ⟨rfl, ?_, ?_⟩
  · intro r _ hr
    simpa [upsert_local] using hr
  · intro q topK fs res hres
    simp only [upsert_local, search_local_file] at hres
    rcases mem_search_local hres with ⟨rec, hmem, _, hid, _, hmd, _⟩
    exact ⟨rec, hmem, hid, hmd⟩

/-- C10 witness: after upserting `[recA]` over a store containing `recB`,
`recB` is gone. -/
theorem C10_upsert_replaces_witness :
    recB ∉ (upsert_local [recA] (some [recB])).getD [] :=
  (C10_upsert_replaces (some [recB]) [recA]).2.1 recB (by simp) (by decide)

/-- C4: loading persisted embeddings: absent/empty resource and empty
parsed list yield an empty sequence; a zero-length first vector yields an
empty sequence plus an error signal without raising; otherwise record 0's
dimension is authoritative, mismatching records are excluded (each with a
warning) while all matching records are kept, and the load never aborts. -/
theorem C4_load_validation (r0 : Record) (rest : List Record) :
    ((load_embeddings FileState.absent).records = [] ∧
      (load_embeddings FileState.emptyFile).records = [] ∧
      (load_embeddings (FileState.parsed [])).records = []) ∧
    (r0.embedding.length = 0 →
      (load_embeddings (FileState.parsed (r0 :: rest))).records = [] ∧
      (load_embeddings (FileState.parsed (r0 :: rest))).errored = true) ∧
    (r0.embedding.length ≠ 0 →
      (load_embeddings (FileState.parsed (r0 :: rest))).errored = false ∧
      r0 ∈ (load_embeddings (FileState.parsed (r0 :: rest))).records ∧
      (∀ r : Record,
        r ∈ (load_embeddings (FileState.parsed (r0 :: rest))).records ↔
          (r ∈ r0 :: rest ∧ r.embedding.length = r0.embedding.length)) ∧
      (load_embeddings (FileState.parsed (r0 :: rest))).warnings =
        ((r0 :: rest).filter
          (fun r => r.embedding.length != r0.embedding.length)).length) := by
  refine ⟨⟨rfl, rfl, rfl⟩, ?_, ?_⟩
  · intro h
    simp [load_embeddings, h]
  · intro h
    have hrec : (load_embeddings (FileState.parsed (r0 :: rest))).records
        = (r0 :: rest).filter (fun r => r.embedding.length == r0.embedding.length) := by
      simp [load_embeddings, h]
    refine ⟨by simp [load_embeddings, h], ?_, ?_, by simp [load_embeddings, h]⟩
    · rw [hrec]
      simp [List.mem_filter]
    · intro r
      rw [hrec, List.mem_filter]
      simp [beq_iff_eq]

/-- C4 witness: a mixed file keeps the records matching record 0's
dimension and drops the mismatching one; a zero-length first vector yields
an empty working set with an error signal. -/
theorem C4_load_validation_witness :
    ((load_embeddings (FileState.parsed [recA, recB2, recB])).errored = false ∧
      recA ∈ (load_embeddings (FileState.parsed [recA, recB2, recB])).records ∧
      (recB2 ∈ (load_embeddings (FileState.parsed [recA, recB2, recB])).records ↔
        (recB2 ∈ [recA, recB2, recB] ∧
          recB2.embedding.length = recA.embedding.length))) ∧
    ((load_embeddings (FileState.parsed [recZero])).records = [] ∧
      (load_embeddings (FileState.parsed [recZero])).errored = true) := by
  have h1 := (C4_load_validation recA [recB2, recB]).2.2 (by decide)
  have h2 := (C4_load_validation recZero []).2.1 (by decide)
  exact ⟨⟨h1.1, h1.2.1, h1.2.2.1 recB2⟩, h2⟩

/-- C9 counterexample: for the query "bakery growth" on a record whose
business focus is "bakery" and mindset pattern is "growth", the code joins
"Same business type" before "Similar mindset", while the claim prescribes
the order goal, challenge, mindset, business — so the claimed construction
disagrees with `_explain_match` at this input. -/
theorem C9_order_counterexample :
    explain_match "bakery growth" mdA = "Same business type + Similar mindset" ∧
    explain_match_claimed "bakery growth" mdA =
      "Similar mindset + Same business type" ∧
    explain_match "bakery growth" mdA ≠ explain_match_claimed "bakery growth" mdA :=
  ⟨by decide, by decide, by decide⟩

/-- C9 amended: the explanation string appends "Similar goal", "Similar
challenge", "Same business type", then "Similar mindset" (in that source
order), joined with " + ", with fallback "Semantic similarity" when none
trigger; and the explanation never affects similarity scores or ranking —
stripping explanations from the enhanced search yields exactly the
underlying vector-store search. -/
theorem C9_explanation_heuristic (query : String) (md : Metadata) :
    explain_match query md = explain_match_amended query md ∧
    ∀ (store : List Record) (dim : Nat) (avail : Bool)
      (apiRes : Option (List ℚ)) (topK : Int) (fs : Filters),
      (enhanced_search store dim avail apiRes query topK fs).map
          (fun er => er.base) =
        search_local store (generate_embedding dim avail apiRes) topK fs := by
  refine ⟨rfl, ?_⟩
  intro store dim avail apiRes topK fs
  simp only [enhanced_search, List.map_map]
  show List.map (fun r => r) _ = _
  simp

/-- C2 counterexample: with two one-dimensional records and `topK = -1`,
the local search returns one result, so "at most topK results" fails for
negative topK (Python slicing drops trailing elements instead). -/
theorem C2_negative_topk_counterexample :
    ¬ (((search_local [recA1, recB2] [1] (-1) []).length : Int) ≤ -1) := by
  with_unfolding_all decide

/-- C2 amended: the local search output is always sorted in descending
order of similarity score, and for every topK ≥ 0 it has at most topK
elements. -/
theorem C2_sorted_and_bounded (store : List Record) (q : List ℚ)
    (topK : Int) (fs : Filters) :
    List.Chain' (fun a b : SearchResult => b.similarity_score ≤ a.similarity_score)
      (search_local store q topK fs) ∧
    (0 ≤ topK → ((search_local store q topK fs).length : Int) ≤ topK) := by
  constructor
  · unfold search_local
    cases hE : search_localE store q topK fs with
    | error e => simp
    | ok out =>
      rcases search_localE_ok_form hE with ⟨sims, rfl⟩
      apply List.Pairwise.chain'
      rw [List.pairwise_map]
      exact List.Pairwise.sublist (pySlice_sublist topK _) (pairwise_stable_sort sims)
  · intro h
    unfold search_local
    cases hE : search_localE store q topK fs with
    | error e => simpa using h
    | ok out =>
      rcases search_localE_ok_form hE with ⟨sims, rfl⟩
      rw [List.length_map]
      unfold pySlice
      rw [if_pos h]
      have hle := List.length_take_le topK.toNat (stable_sort_desc sims)
      omega

/-- C2 witness: concrete sorted output of at most one element for topK = 1. -/
theorem C2_sorted_and_bounded_witness :
    List.Chain' (fun a b : SearchResult => b.similarity_score ≤ a.similarity_score)
      (search_local [recA1, recB2] [1] 1 []) ∧
    ((search_local [recA1, recB2] [1] 1 []).length : Int) ≤ 1 :=
  ⟨(C2_sorted_and_bounded [recA1, recB2] [1] 1 []).1,
   (C2_sorted_and_bounded [recA1, recB2] [1] 1 []).2 (by decide)⟩

/-- C7 counterexample: `topK = -1` is ≤ 0, yet the local search returns a
non-empty result — Python's `[:-1]` slice keeps all but the last ranked
candidate instead of yielding an empty list. -/
theorem C7_negative_topk_counterexample :
    search_local [recA1, recB2] [1] (-1) [] = [toRes (2, recB2)] ∧
    search_local [recA1, recB2] [1] (-1) [] ≠ [] :=
  ⟨by with_unfolding_all decide, by with_unfolding_all decide⟩

/-- C7 amended: `topK = 0` yields an empty result; a negative `topK`
returns the descending-ranked candidates with the last `min(-topK, count)`
dropped (empty only when `-topK` reaches the candidate count); `topK`
greater than the candidate count returns all candidates. -/
theorem C7_topk_edge_cases (store : List Record) (q : List ℚ) (topK : Int)
    (fs : Filters) (cands : List Record)
    (hc : candidates_of store fs = Except.ok cands)
    (hdim : ∀ r ∈ store, r.embedding.length = q.length) :
    (topK = 0 → search_local store q topK fs = []) ∧
    (topK < 0 →
      (search_local store q topK fs).length = cands.length - (-topK).toNat) ∧
    ((cands.length : Int) < topK →
      (search_local store q topK fs).length = cands.length ∧
      ∀ rec ∈ cands, ∃ res ∈ search_local store q topK fs,
        res.id = rec.id ∧ res.similarity_score = dotP q rec.embedding) := by
  have hdim' : ∀ r ∈ cands, r.embedding.length = q.length := fun r hr =>
    hdim r (mem_candidates_of hc r hr).1
  have hs := sims_of_eq hdim'
  have heq := search_local_eq topK hc hs
  have hlen : (stable_sort_desc
      (cands.map fun r => (dotP q r.embedding, r))).length = cands.length := by
    rw [(perm_stable_sort _).length_eq, List.length_map]
  refine ⟨?_, ?_, ?_⟩
  · intro h
    subst h
    rw [heq]
    simp [pySlice]
  · intro h
    rw [heq, List.length_map, length_pySlice_neg h, hlen]
  · intro h
    have hall : pySlice topK (stable_sort_desc
        (cands.map fun r => (dotP q r.embedding, r))) =
        stable_sort_desc (cands.map fun r => (dotP q r.embedding, r)) :=
      pySlice_all (by rw [hlen]; exact le_of_lt h)
    constructor
    · rw [heq, hall, List.length_map, hlen]
    · intro rec hrec
      refine ⟨toRes (dotP q rec.embedding, rec), ?_, rfl, rfl⟩
      rw [heq, hall]
      exact List.mem_map_of_mem toRes
        (((perm_stable_sort _).mem_iff).mpr
          (List.mem_map_of_mem (fun r => (dotP q r.embedding, r)) hrec))

/-- C7 witness: on a two-record store, topK 0 yields nothing, topK -1
yields one result, and topK 3 yields both candidates. -/
theorem C7_topk_edge_cases_witness :
    search_local [recA, recB] [1, 0] 0 [] = [] ∧
    (search_local [recA, recB] [1, 0] (-1) []).length = 1 ∧
    (search_local [recA, recB] [1, 0] 3 []).length = 2 := by
  have h0 := (C7_topk_edge_cases [recA, recB] [1, 0] 0 [] [recA, recB]
    rfl (by decide)).1 rfl
  have h1 := (C7_topk_edge_cases [recA, recB] [1, 0] (-1) [] [recA, recB]
    rfl (by decide)).2.1 (by decide)
  have h3 := ((C7_topk_edge_cases [recA, recB] [1, 0] 3 [] [recA, recB]
    rfl (by decide)).2.2 (by decide)).1
  exact ⟨h0, h1, h3⟩

/-- C8: tie-break stability: for any score value, the results carrying that
score appear in the output in the same relative order as the corresponding
candidates in original insertion order (the output's equal-score id
sequence is a prefix of the candidates' equal-score id sequence). -/
theorem C8_tie_stability (store : List Record) (q : List ℚ) (topK : Int)
    (fs : Filters) (cands : List Record) (s : ℚ)
    (hc : candidates_of store fs = Except.ok cands)
    (hdim : ∀ r ∈ store, r.embedding.length = q.length) :
    ((search_local store q topK fs).filter
        (fun r => decide (r.similarity_score = s))).map (fun r => r.id) <+:
      ((cands.filter
        (fun r => decide (dotP q r.embedding = s))).map (fun r => r.id)) := by
  have hdim' : ∀ r ∈ cands, r.embedding.length = q.length := fun r hr =>
    hdim r (mem_candidates_of hc r hr).1
  have hs := sims_of_eq hdim'
  rw [search_local_eq topK hc hs, List.filter_map, List.map_map]
  have h1 : pySlice topK (stable_sort_desc
      (cands.map fun r => (dotP q r.embedding, r))) <+:
      stable_sort_desc (cands.map fun r => (dotP q r.embedding, r)) :=
    pySlice_isPre _ _
  have h2 := List.IsPrefix.filter (fun p : ℚ × Record => decide (p.1 = s)) h1
  rw [filter_stable_sort, List.filter_map] at h2
  have h3 := List.IsPrefix.map (fun p : ℚ × Record => p.2.id) h2
  rw [List.map_map] at h3
  exact h3

/-- C8 witness: two records with identical vectors tie at score 1 and keep
their insertion order in the output. -/
theorem C8_tie_stability_witness :
    ((search_local [recA, recC] [1, 0] 5 []).filter
        (fun r => decide (r.similarity_score = 1))).map (fun r => r.id) <+:
      (([recA, recC].filter
        (fun r => decide (dotP [1, 0] r.embedding = 1))).map (fun r => r.id)) :=
  C8_tie_stability [recA, recC] [1, 0] 5 [] [recA, recC] 1 rfl (by decide)

/-- C1 counterexample: querying with record "a"'s own stored vector `[1]`
while record "b" stores `[2]` ranks "b" first with score 2 — the queried
record is not the top result and the top score is not its self-similarity,
because the raw dot product is not maximized by the query vector itself
when vectors are not unit-length. -/
theorem C1_self_query_counterexample :
    search_local [recA1, recB2] recA1.embedding 1 [] = [toRes (2, recB2)] ∧
    (toRes (2, recB2)).id ≠ recA1.id ∧
    (toRes (2, recB2)).similarity_score ≠ dotP recA1.embedding recA1.embedding :=
  ⟨by with_unfolding_all decide, by decide, by with_unfolding_all decide⟩

/-- C1 amended: querying with a stored record's exact vector (no filter,
topK ≥ 1, uniform dimensions) returns a non-empty result whose top entry
carries the maximum dot-product score achievable for the dataset (attained
by some stored record); the queried record itself is the top result
whenever its self dot product strictly exceeds the query's dot product
with every other stored record. -/
theorem C1_self_query (store : List Record) (r : Record) (topK : Int)
    (hr : r ∈ store)
    (hdim : ∀ p ∈ store, p.embedding.length = r.embedding.length)
    (htop : 1 ≤ topK) :
    ∃ h t, search_local store r.embedding topK [] = h :: t ∧
      (∃ p ∈ store, h.id = p.id ∧
        h.similarity_score = dotP r.embedding p.embedding) ∧
      (∀ p ∈ store, dotP r.embedding p.embedding ≤ h.similarity_score) ∧
      ((∀ p ∈ store, p ≠ r →
          dotP r.embedding p.embedding < dotP r.embedding r.embedding) →
        h.id = r.id ∧ h.similarity_score = dotP r.embedding r.embedding) := by
  have hc : candidates_of store [] = Except.ok store := rfl
  have hs := sims_of_eq (q := r.embedding) hdim
  have heq := search_local_eq topK hc hs
  have hperm := perm_stable_sort
    (store.map fun p => (dotP r.embedding p.embedding, p))
  have hlen : (stable_sort_desc
      (store.map fun p => (dotP r.embedding p.embedding, p))).length =
      store.length := by
    rw [hperm.length_eq, List.length_map]
  cases hshape : stable_sort_desc
      (store.map fun p => (dotP r.embedding p.embedding, p)) with
  | nil =>
    exfalso
    have hz : store.length = 0 := by rw [← hlen, hshape]; rfl
    have hnil : store = [] := List.length_eq_zero.mp hz
    rw [hnil] at hr
    cases hr
  | cons x t =>
    have hpw := pairwise_stable_sort
      (store.map fun p => (dotP r.embedding p.embedding, p))
    rw [hshape] at hpw
    rcases List.pairwise_cons.mp hpw with ⟨hmax0, _⟩
    have hmax : ∀ p ∈ store, dotP r.embedding p.embedding ≤ x.1 := by
      intro p hp
      have hmem : (dotP r.embedding p.embedding, p) ∈ stable_sort_desc
          (store.map fun p' => (dotP r.embedding p'.embedding, p')) :=
        (hperm.mem_iff).mpr
          (List.mem_map_of_mem (fun p' => (dotP r.embedding p'.embedding, p')) hp)
      rw [hshape] at hmem
      rcases List.mem_cons.mp hmem with heq2 | hmem'
      · exact le_of_eq (congrArg Prod.fst heq2)
      · exact hmax0 _ hmem'
    have hx_mem : x ∈ store.map fun p => (dotP r.embedding p.embedding, p) :=
      (hperm.mem_iff).mp (by rw [hshape]; exact List.mem_cons_self x t)
    rcases List.mem_map.mp hx_mem with ⟨p0, hp0, hfp0⟩
    have hx1 : x.1 = dotP r.embedding p0.embedding := (congrArg Prod.fst hfp0).symm
    have hx2 : x.2 = p0 := (congrArg Prod.snd hfp0).symm
    have h0 : (0 : Int) ≤ topK := by omega
    obtain ⟨n, hn⟩ : ∃ n, topK.toNat = n + 1 := ⟨topK.toNat - 1, by omega⟩
    have hslice : pySlice topK (x :: t) = x :: t.take n := by
      unfold pySlice
      rw [if_pos h0, hn, List.take_succ_cons]
    refine ⟨toRes x, (t.take n).map toRes, ?_, ?_, ?_, ?_⟩
    · rw [heq, hshape, hslice, List.map_cons]
    · exact ⟨p0, hp0, by show x.2.id = p0.id; rw [hx2], hx1⟩
    · intro p hp
      exact hmax p hp
    · intro hstrict
      by_cases hpr : p0 = r
      · subst hpr
        exact ⟨by show x.2.id = p0.id; rw [hx2], hx1⟩
      · exfalso
        have h1 : dotP r.embedding p0.embedding < dotP r.embedding r.embedding :=
          hstrict p0 hp0 hpr
        have h2 : dotP r.embedding r.embedding ≤ x.1 := hmax r hr
        rw [hx1] at h2
        exact absurd h1 (not_lt.mpr h2)

/-- C1 witness: on the spec's own example store, querying with record
"a"'s vector `[1,0]` ranks "a" first with the maximal score. -/
theorem C1_self_query_witness :
    ∃ h t, search_local [recA, recB] recA.embedding 1 [] = h :: t ∧
      (∃ p ∈ [recA, recB], h.id = p.id ∧
        h.similarity_score = dotP recA.embedding p.embedding) ∧
      (∀ p ∈ [recA, recB], dotP recA.embedding p.embedding ≤ h.similarity_score) ∧
      ((∀ p ∈ [recA, recB], p ≠ recA →
          dotP recA.embedding p.embedding < dotP recA.embedding recA.embedding) →
        h.id = recA.id ∧ h.similarity_score = dotP recA.embedding recA.embedding) :=
  C1_self_query [recA, recB] recA 1 (by decide) (by decide) (by decide)

/-- A well-typed participant key makes the participant clause total. -/
theorem matches_participant_ok (item : Record) {fs : Filters}
    (h : (match lookupF fs "participant" with
          | some (FVal.i _) => false
          | _ => true) = true) :
    ∃ b, matches_participant item fs = Except.ok b := by
  cases hp : lookupF fs "participant" with
  | none => exact ⟨true, by simp only [matches_participant, hp]⟩
  | some fv =>
    cases fv with
    | s v =>
      by_cases hc : pyLower item.participant = pyLower v
      · exact ⟨true, by simp only [matches_participant, hp, if_pos hc]⟩
      · exact ⟨false, by simp only [matches_participant, hp, if_neg hc]⟩
    | i v =>
      rw [hp] at h
      simp at h

/-- Well-typed urgency and participant keys make the urgency clause total. -/
theorem matches_urgency_ok (item : Record) {fs : Filters}
    (hu : (match lookupF fs "urgency_level" with
           | some (FVal.s _) => false
           | _ => true) = true)
    (hp : (match lookupF fs "participant" with
           | some (FVal.i _) => false
           | _ => true) = true) :
    ∃ b, matches_urgency item fs = Except.ok b := by
  cases hq : lookupF fs "urgency_level" with
  | none =>
    rcases matches_participant_ok item hp with ⟨b, hb⟩
    exact ⟨b, by simp only [matches_urgency, hq]; exact hb⟩
  | some fv =>
    cases fv with
    | s v =>
      rw [hq] at hu
      simp at hu
    | i v =>
      by_cases hcomp : item.metadata.urgency_level < v
      · exact ⟨false, by simp only [matches_urgency, hq, if_pos hcomp]⟩
      · rcases matches_participant_ok item hp with ⟨b, hb⟩
        exact ⟨b, by simp only [matches_urgency, hq, if_neg hcomp]; exact hb⟩

/-- Well-typed supported keys make the whole filter predicate total. -/
theorem matches_filters_ok (item : Record) {fs : Filters}
    (hbf : (match lookupF fs "business_focus" with
            | some (FVal.i _) => false
            | _ => true) = true)
    (hu : (match lookupF fs "urgency_level" with
           | some (FVal.s _) => false
           | _ => true) = true)
    (hp : (match lookupF fs "participant" with
           | some (FVal.i _) => false
           | _ => true) = true) :
    ∃ b, matches_filters item fs = Except.ok b := by
  cases hb : lookupF fs "business_focus" with
  | none =>
    rcases matches_urgency_ok item hu hp with ⟨b, hbx⟩
    exact ⟨b, by simp only [matches_filters, hb]; exact hbx⟩
  | some fv =>
    cases fv with
    | s v =>
      by_cases hc : pyLower item.metadata.business_focus = pyLower v
      · rcases matches_urgency_ok item hu hp with ⟨b, hbx⟩
        exact ⟨b, by simp only [matches_filters, hb, if_pos hc]; exact hbx⟩
      · exact ⟨false, by simp only [matches_filters, hb, if_neg hc]⟩
    | i v =>
      rw [hb] at hbf
      simp at hbf

/-- C3: every record appearing in the local search output satisfies the
filter predicate (conjunction of case-insensitive business-focus equality,
case-insensitive participant equality, and urgency-level ≥ threshold);
well-typed values under the three supported keys never cause an error,
whatever other keys are present; and the predicate depends only on the
three supported keys, so unsupported keys are ignored. -/
theorem C3_filter_correctness :
    (∀ (store : List Record) (q : List ℚ) (topK : Int) (fs : Filters)
        (res : SearchResult), res ∈ search_local store q topK fs →
      ∃ rec ∈ store, matches_filters rec fs = Except.ok true ∧
        res.participant = rec.participant ∧ res.metadata = rec.metadata) ∧
    (∀ (item : Record) (fs : Filters), wellTypedF fs = true →
      ∃ b, matches_filters item fs = Except.ok b) ∧
    (∀ (item : Record) (fs fs' : Filters),
      lookupF fs "business_focus" = lookupF fs' "business_focus" →
      lookupF fs "urgency_level" = lookupF fs' "urgency_level" →
      lookupF fs "participant" = lookupF fs' "participant" →
      matches_filters item fs = matches_filters item fs') := by
  refine ⟨?_, ?_, ?_⟩
  · intro store q topK fs res hres
    rcases mem_search_local hres with ⟨rec, hmem, hmf, _, hpart, hmd, _⟩
    exact ⟨rec, hmem, hmf, hpart, hmd⟩
  · intro item fs hwt
    unfold wellTypedF at hwt
    rw [Bool.and_eq_true, Bool.and_eq_true] at hwt
    rcases hwt with ⟨⟨hbf, hu⟩, hp⟩
    exact matches_filters_ok item hbf hu hp
  · intro item fs fs' h1 h2 h3
    have hparts : matches_participant item fs = matches_participant item fs' := by
      unfold matches_participant
      rw [h3]
    have hurg : matches_urgency item fs = matches_urgency item fs' := by
      unfold matches_urgency
      rw [h2, hparts]
    unfold matches_filters
    rw [h1, hurg]

/-- C3 witness: a participant filter carrying an extra unsupported key
passes only the matching record through the search, is well-typed, and
behaves identically with the unsupported key removed. -/
theorem C3_filter_correctness_witness :
    (∃ rec ∈ [recA, recB], matches_filters rec wfs = Except.ok true ∧
      (toRes (1, recA)).participant = rec.participant ∧
      (toRes (1, recA)).metadata = rec.metadata) ∧
    (∃ b, matches_filters recA wfs = Except.ok b) ∧
    matches_filters recA wfs =
      matches_filters recA [("participant", FVal.s "alice")] := by
  refine ⟨?_, ?_, ?_⟩
  · exact C3_filter_correctness.1 [recA, recB] [1, 0] 5 wfs (toRes (1, recA))
      (by with_unfolding_all decide)
  · exact C3_filter_correctness.2.1 recA wfs (by decide)
  · exact C3_filter_correctness.2.2 recA wfs [("participant", FVal.s "alice")]
      rfl rfl rfl
